import Mathlib

/-!
Verification development for the campaign resolution and dispatch engine of the
Agentic Mailing Orchestrator.  The definitions below are a shallow embedding of
the TypeScript source: `page.tsx` (template rendering, filtering, recipient
resolution, distinct-recipient counting) and `api/send/route.ts` (payload
validation, sender-identity resolution, the dispatch loop).
-/

/-- A spreadsheet row: an association list from column name to cell value,
mirroring the JavaScript object `Record<string, string>` (keys unique,
insertion-ordered). -/
abbrev DataRow := List (String × String)

/-- Trim over character lists (JS `String.prototype.trim` on the token key). -/
def trimChars (l : List Char) : List Char :=
  ((l.dropWhile Char.isWhitespace).reverse.dropWhile Char.isWhitespace).reverse

/-- JS `String.prototype.toLowerCase`, character by character. -/
def toLowerStr (s : String) : String := String.mk (s.data.map Char.toLower)

/-- `normalizeValue` from page.tsx: absent/null cells become the empty string,
present values are trimmed. -/
def normalizeValue (v : Option String) : String := String.mk (trimChars (v.getD "").data)

/-- JavaScript `||` on strings: the left operand unless it is falsy (empty). -/
def jsOr (a b : String) : String := if a = "" then b else a

/-! ## Template Renderer (page.tsx, `renderTemplate`) -/

/-- The lowered lookup map of `renderTemplate`: row keys trimmed and
lower-cased.  A JavaScript `Map` built from a list keeps the *last* entry for a
duplicated key, hence the `reverse` before first-match lookup. -/
def loweredRow (row : DataRow) : List (String × String) :=
  (row.map fun p => (toLowerStr (String.mk (trimChars p.1.data)), p.2)).reverse

/-- The replacement callback of `renderTemplate`: exact key lookup first, then
the case-insensitive (trimmed, lower-cased) fallback, else the empty string. -/
def resolveToken (row : DataRow) (key : String) : String :=
  match List.lookup key row with
  | some v => v
  | none => (List.lookup (toLowerStr key) (loweredRow row)).getD ""

/-- Attempt to match the body of a token right after an opening `\x7b\x7b`:
the regex `\x7b\x7b\s*([^\x7d]+)\s*\x7d\x7d` requires a non-empty run of
non-`\x7d` characters followed immediately by `\x7d\x7d`.  Returns the raw key
characters and the remainder after the closing braces. -/
def tokenBodyAt (rest : List Char) : Option (List Char × List Char) :=
  let pre := rest.takeWhile fun c => c != '}'
  let rem := rest.drop pre.length
  if pre = [] then none
  else if rem.take 2 = ['}', '}'] then some (pre, rem.drop 2) else none

/-- Attempt to match a whole token at the current scan position, whose first
character is `c` and remaining characters are `rest`. -/
def tokenAt (c : Char) (rest : List Char) : Option (List Char × List Char) :=
  if c = '{' ∧ rest.take 1 = ['{'] then tokenBodyAt (rest.drop 1) else none

/-- Fuel-indexed left-to-right scan-and-replace of `renderTemplate`: at each
position, if the token regex matches there the token is replaced via
`resolveToken` and scanning resumes after the closing braces, otherwise the
character is copied and scanning advances one position.  One unit of fuel is
spent per scan position, so `l.length` fuel always suffices. -/
def renderAux (row : DataRow) : Nat → List Char → List Char
  | 0, l => l
  | fuel + 1, l =>
    match l with
    | [] => []
    | c :: rest =>
      match tokenAt c rest with
      | some (pre, after) =>
          (resolveToken row (String.mk (trimChars pre))).data ++ renderAux row fuel after
      | none => c :: renderAux row fuel rest

/-- Scan-and-replace over a character list with adequate fuel. -/
def renderList (row : DataRow) (l : List Char) : List Char :=
  renderAux row l.length l

/-- `renderTemplate` from page.tsx. -/
def renderTemplate (template : String) (row : DataRow) : String :=
  String.mk (renderList row template.data)

/-- Does the token regex match at this exact position? -/
def matchAt : List Char → Bool
  | c :: rest => (tokenAt c rest).isSome
  | [] => false

/-- Does the template contain any token occurrence (a regex match at some
position)? -/
def hasToken (l : List Char) : Bool :=
  (List.range l.length).any fun i => matchAt (l.drop i)

/-! ## Filter Evaluator (page.tsx, `applyFilter`) -/

/-- An agent's audience filter.  The operator is carried as a plain string, as
it is at the JavaScript runtime (the switch statement has a defensive default
branch for unrecognized values). -/
structure AgentFilter where
  column : String
  operator : String
  value : String
deriving DecidableEq

/-- Haystack starts with needle (JS `String.prototype.startsWith`). -/
def startsWithL : List Char → List Char → Bool
  | _, [] => true
  | [], _ :: _ => false
  | c :: cs, d :: ds => c = d && startsWithL cs ds

/-- Haystack ends with needle (JS `String.prototype.endsWith`). -/
def endsWithL (hay need : List Char) : Bool :=
  startsWithL hay.reverse need.reverse

/-- Needle occurs somewhere in haystack (JS `String.prototype.includes`). -/
def containsL (hay need : List Char) : Bool :=
  (List.range (hay.length + 1)).any fun i => startsWithL (hay.drop i) need

/-- `applyFilter` from page.tsx. -/
def applyFilter (row : DataRow) (filter : Option AgentFilter) : Bool :=
  match filter with
  | none => true
  | some f =>
    if f.column = "" ∨ f.value = "" then true
    else
      let targetValue := (List.lookup f.column row).getD ""
      let needle := toLowerStr f.value
      let haystack := toLowerStr targetValue
      match f.operator with
      | "equals" => haystack = needle
      | "contains" => containsL haystack.data needle.data
      | "startsWith" => startsWithL haystack.data needle.data
      | "endsWith" => endsWithL haystack.data needle.data
      | _ => true

/-! ## Agent definitions and recipient resolution (page.tsx) -/

/-- An agent definition as configured in the UI. -/
structure AgentDefinition where
  id : String
  name : String
  subjectTemplate : String
  bodyTemplate : String
  filter : Option AgentFilter := none
deriving DecidableEq

/-- A recipient as produced by `handleSend` and consumed by the route's
schema: `to`/`subject`/`body`/`variables`/`name` (the JSON field names `to` and `variables` are Lean keywords, so they are embedded as `toAddr` and `vars`). -/
structure ReqRecipient where
  toAddr : String
  subject : String
  body : String
  vars : List (String × String) := []
  name : Option String := none
deriving DecidableEq

/-- An agent entry of the dispatch payload. -/
structure ReqAgent where
  id : String
  name : String
  recipients : List ReqRecipient
deriving DecidableEq

/-- The distinct-recipient stream of `totalRecipients` in page.tsx: for each
agent, for each row passing the agent's filter, the normalized email value of
the configured email column when non-empty. -/
def collectedEmails (rows : List DataRow) (emailColumn : String)
    (agents : List AgentDefinition) : List String :=
  agents.flatMap fun a => rows.flatMap fun row =>
    if applyFilter row a.filter then
      (let email := normalizeValue (List.lookup emailColumn row)
       if email = "" then [] else [email])
    else []

/-- `totalRecipients` from page.tsx: the size of the `Set` of collected email
values (zero when no email column is selected). -/
def totalRecipients (rows : List DataRow) (emailColumn : String)
    (agents : List AgentDefinition) : Nat :=
  if emailColumn = "" then 0 else (collectedEmails rows emailColumn agents).dedup.length

/-- The per-agent recipient resolution inside `handleSend` in page.tsx: keep
the rows passing the agent's filter, drop rows whose normalized email value is
empty, and render subject and body against the row. -/
def prepareAgent (rows : List DataRow) (emailColumn nameColumn : String)
    (agent : AgentDefinition) : ReqAgent :=
  { id := agent.id
    name := agent.name
    recipients :=
      (rows.filter fun row => applyFilter row agent.filter).filterMap fun row =>
        let email := normalizeValue (List.lookup emailColumn row)
        if email = "" then none
        else some
          { toAddr := email
            subject := renderTemplate agent.subjectTemplate row
            body := renderTemplate agent.bodyTemplate row
            vars := row
            name := if nameColumn = "" then none else List.lookup nameColumn row } }

/-- `preparedAgents` inside `handleSend`: resolve every agent and drop agents
with an empty recipient list. -/
def preparedAgents (rows : List DataRow) (emailColumn nameColumn : String)
    (agents : List AgentDefinition) : List ReqAgent :=
  (agents.map (prepareAgent rows emailColumn nameColumn)).filter fun a =>
    !a.recipients.isEmpty

/-! ## Dispatch route (api/send/route.ts) -/

/-- The optional `from` object of the request payload. -/
structure FromHeader where
  email : Option String := none
  name : Option String := none
deriving DecidableEq

/-- The request payload consumed by the route (`from` is a Lean keyword, so
the field is embedded as `fromField`). -/
structure Payload where
  agents : List ReqAgent
  fromField : Option FromHeader := none
deriving DecidableEq

/-- Process-level configuration read by the route; an unset environment
variable is embedded as the empty string (both are falsy under JS `||`). -/
structure Env where
  SMTP_HOST : String := ""
  MAIL_FROM : String := ""
  SMTP_FROM : String := ""
  SMTP_USER : String := ""
  MAIL_FROM_NAME : String := ""
  SMTP_FROM_NAME : String := ""
deriving DecidableEq

/-- Allowed characters of an email local part. -/
def isLocalChar (c : Char) : Bool :=
  c.isAlphanum || c = '.' || c = '_' || c = '+' || c = '-' || c = '\''

/-- Allowed characters of an email domain label. -/
def isDomainChar (c : Char) : Bool :=
  c.isAlphanum || c = '-'

/-- Split a character list at every occurrence of the separator (the
separator itself is dropped, empty segments are kept). -/
def splitOnChar (c : Char) : List Char → List (List Char)
  | [] => [[]]
  | d :: rest =>
    if d = c then [] :: splitOnChar c rest
    else
      match splitOnChar c rest with
      | [] => [[d]]
      | s :: ss => (d :: s) :: ss

/-- Modelled from the spec: "each recipient's `to` must be a syntactically
valid email address" — the syntactic email validity enforced by the route's
schema through the external validation library (`z.string().email()`), whose
own code is not part of this repository.  A non-empty local part of permitted
characters, a single `@`, and a dot-separated domain whose labels are
non-empty with an alphabetic top-level label of length at least two.  In
particular the empty string is not a valid email. -/
def isValidEmail (s : String) : Bool :=
  match splitOnChar '@' s.data with
  | [lp, domain] =>
    !lp.isEmpty && lp.all isLocalChar &&
      (let labels := splitOnChar '.' domain
       decide (2 ≤ labels.length) && labels.all (fun lab => !lab.isEmpty && lab.all isDomainChar) &&
         (match labels.getLast? with
          | some tld => decide (2 ≤ tld.length) && tld.all Char.isAlpha
          | none => false))
  | _ => false

/-- A structural violation reported by the route's schema validation
(`emailRequestSchema.safeParse`), identified by the offending component. -/
inductive Issue where
  | emptyAgents
  | emptyRecipients (agent : ReqAgent)
  | invalidTo (agent : ReqAgent) (r : ReqRecipient)
  | emptySubject (agent : ReqAgent) (r : ReqRecipient)
  | emptyBody (agent : ReqAgent) (r : ReqRecipient)
  | invalidFromEmail (email : String)
deriving DecidableEq

/-- Schema violations of one recipient: `to` must be a valid email, `subject`
and `body` must be non-empty (`z.string().min(1)`). -/
def recipientIssues (a : ReqAgent) (r : ReqRecipient) : List Issue :=
  (if isValidEmail r.toAddr then [] else [.invalidTo a r]) ++
    (if r.subject = "" then [.emptySubject a r] else []) ++
      (if r.body = "" then [.emptyBody a r] else [])

/-- Schema violations of one agent: `recipients` must be non-empty
(`.min(1)`), and every recipient must be well-formed. -/
def agentIssues (a : ReqAgent) : List Issue :=
  (if a.recipients = [] then [.emptyRecipients a] else []) ++
    a.recipients.flatMap (recipientIssues a)

/-- Schema violations of the optional `from` object: when an email is
supplied it must be syntactically valid (`z.string().email().optional()`). -/
def fromIssues : Option FromHeader → List Issue
  | none => []
  | some f =>
    match f.email with
    | none => []
    | some e => if isValidEmail e then [] else [.invalidFromEmail e]

/-- All schema violations of a payload: `agents` must be non-empty
(`.min(1)`), every agent well-formed, and the `from` object well-formed.
`safeParse` succeeds exactly when this list is empty. -/
def payloadIssues (p : Payload) : List Issue :=
  (if p.agents = [] then [.emptyAgents] else []) ++
    p.agents.flatMap agentIssues ++ fromIssues p.fromField

/-- `resolveFromHeader` in route.ts, split out: the process-level default
sender email (`MAIL_FROM || SMTP_FROM || SMTP_USER || ""`). -/
def defaultSenderEmail (env : Env) : String :=
  jsOr env.MAIL_FROM (jsOr env.SMTP_FROM env.SMTP_USER)

/-- The process-level default sender name
(`MAIL_FROM_NAME || SMTP_FROM_NAME || MAIL_FROM || ""`). -/
def defaultSenderName (env : Env) : String :=
  jsOr env.MAIL_FROM_NAME (jsOr env.SMTP_FROM_NAME env.MAIL_FROM)

/-- The sender email the route settles on: the request-supplied `from.email`
when truthy, otherwise the process-level default. -/
def senderEmailOf (env : Env) (f : FromHeader) : String :=
  jsOr (f.email.getD "") (defaultSenderEmail env)

/-- `resolveFromHeader` from route.ts: `none` when no sender email can be
determined, otherwise the formatted header. -/
def resolveFromHeader (env : Env) (f : FromHeader) : Option String :=
  let email := senderEmailOf env f
  let name := jsOr (f.name.getD "") (defaultSenderName env)
  if email = "" then none
  else if name = "" then some email else some (name ++ " <" ++ email ++ ">")

/-- Replace each occurrence of a character by a replacement string. -/
def replaceCharWith (c : Char) (repl : List Char) (l : List Char) : List Char :=
  l.flatMap fun d => if d = c then repl else [d]

/-- `buildHtmlBody` from route.ts: escape `&`, `<`, `>` (in that order),
convert newlines to `<br/>`, and wrap in the styled container. -/
def buildHtmlBody (plainText : String) : String :=
  let escaped :=
    replaceCharWith '\n' "<br/>".data
      (replaceCharWith '>' "&gt;".data
        (replaceCharWith '<' "&lt;".data
          (replaceCharWith '&' "&amp;".data plainText.data)))
  "<div style=\"font-family: 'Segoe UI', Arial, sans-serif; font-size: 16px; line-height: 1.6; color: #0f172a;\">\n"
    ++ String.mk escaped ++ "\n</div>"

/-- The message envelope handed to `transport.sendMail` for one recipient. -/
structure Envelope where
  fromH : String
  toAddr : String
  subject : String
  text : String
  html : String
  headers : List (String × String)
deriving DecidableEq

/-- Envelope construction in the dispatch loop: the destination is
`"Name <email>"` when the recipient has a truthy name, the `X-Agent-Name`
header is attached when the agent has a truthy name. -/
def buildEnvelope (fromHeader agentName : String) (r : ReqRecipient) : Envelope :=
  { fromH := fromHeader
    toAddr :=
      match r.name with
      | some n => if n = "" then r.toAddr else n ++ " <" ++ r.toAddr ++ ">"
      | none => r.toAddr
    subject := r.subject
    text := r.body
    html := buildHtmlBody r.body
    headers := if agentName = "" then [] else [("X-Agent-Name", agentName)] }

/-- The route's response, abstracted from HTTP: schema rejection with the
violation list (422), missing sender identity (400), dispatch failure naming
the failing recipient's address (500), or success with the dry-run flag, the
total sent and the number of agents (200). -/
inductive PostResponse where
  | invalidPayload (issues : List Issue)
  | missingSender
  | sendFailure (toAddr : String)
  | success (dryRun : Bool) (total : Nat) (agentCount : Nat)
deriving DecidableEq

/-- The inner recipient loop for one agent: attempts each recipient in order;
on the first transport failure it stops, reporting that recipient's raw
address; on full success it reports the sent count.  Also returns the list of
envelopes actually handed to the transport, in order. -/
def sendLoopAgent (sendOk : Envelope → Bool) (fromHeader agentName : String) :
    List ReqRecipient → List Envelope × Except String Nat
  | [] => ([], .ok 0)
  | r :: rs =>
    let e := buildEnvelope fromHeader agentName r
    if sendOk e then
      match sendLoopAgent sendOk fromHeader agentName rs with
      | (att, .ok n) => (e :: att, .ok (n + 1))
      | (att, .error t) => (e :: att, .error t)
    else ([e], .error r.toAddr)

/-- The outer agent loop: agents in order; a failure inside an agent aborts
the whole dispatch; on full success the per-agent summary
`{agentId, sent}` is accumulated. -/
def sendLoop (sendOk : Envelope → Bool) (fromHeader : String) :
    List ReqAgent → List Envelope × Except String (List (String × Nat))
  | [] => ([], .ok [])
  | a :: rest =>
    match sendLoopAgent sendOk fromHeader a.name a.recipients with
    | (att, .error t) => (att, .error t)
    | (att, .ok n) =>
      match sendLoop sendOk fromHeader rest with
      | (att2, .ok summ) => (att ++ att2, .ok ((a.id, n) :: summ))
      | (att2, .error t) => (att ++ att2, .error t)

/-- `POST` from route.ts (for a well-formed JSON body): schema validation,
sender-identity resolution, then the dispatch loop.  The transport outcome is
abstracted as a boolean predicate on envelopes; the second component is the
list of envelopes handed to the transport, in order. -/
def POST (env : Env) (sendOk : Envelope → Bool) (p : Payload) :
    PostResponse × List Envelope :=
  if payloadIssues p = [] then
    match resolveFromHeader env (p.fromField.getD {}) with
    | none => (.missingSender, [])
    | some fromHeader =>
      let dryRun := env.SMTP_HOST = ""
      match sendLoop sendOk fromHeader p.agents with
      | (att, .error t) => (.sendFailure t, att)
      | (att, .ok summary) =>
        (.success dryRun (summary.foldl (fun acc it => acc + it.2) 0) summary.length, att)
  else (.invalidPayload (payloadIssues p), [])

/-- The flattened (agent name, recipient) stream of a dispatch payload, in
processing order. -/
def flatPairs (agents : List ReqAgent) : List (String × ReqRecipient) :=
  agents.flatMap fun a => a.recipients.map fun r => (a.name, r)

/-! ## Example data used by concrete instances and witnesses -/

/-- A sample contact row. -/
def exRow : DataRow := [("Email", "ana@example.com"), ("Name", "Ana"), ("Topic", "Lean")]

/-- A second sample row whose email differs from `exRow`'s only in case. -/
def exRowUpper : DataRow := [("Email", "Ana@example.com"), ("Name", "Ana")]

/-- A sample agent with no filter. -/
def exAgentA : AgentDefinition :=
  { id := "a1", name := "Agent A"
    subjectTemplate := "\x7b\x7bName\x7d\x7d", bodyTemplate := "Hi \x7b\x7bName\x7d\x7d" }

/-- A second sample agent with no filter. -/
def exAgentB : AgentDefinition :=
  { id := "b1", name := "Agent B"
    subjectTemplate := "\x7b\x7bName\x7d\x7d", bodyTemplate := "Yo \x7b\x7bName\x7d\x7d" }

/-- The payload `handleSend` produces for `exAgentA`/`exAgentB` over the single
row `exRow` with an explicit sender. -/
def exPayload : Payload :=
  { agents := preparedAgents [exRow] "Email" "Name" [exAgentA, exAgentB]
    fromField := some { email := some "ops@example.com", name := some "Ops" } }

/-- A structurally valid one-agent payload with no `from` object. -/
def exPayloadNoFrom : Payload :=
  { agents := [{ id := "a1", name := "A"
                 recipients := [{ toAddr := "ana@example.com", subject := "S", body := "B" }] }]
    fromField := none }

/-- A four-recipient payload: agent A has a second recipient whose address the
example transport rejects, agent B has two recipients after it. -/
def exPayloadFail : Payload :=
  { agents :=
      [{ id := "a1", name := "Agent A"
         recipients :=
           [{ toAddr := "ok1@example.com", subject := "S1", body := "B1" },
            { toAddr := "bad@example.com", subject := "S2", body := "B2" }] },
       { id := "b1", name := "Agent B"
         recipients :=
           [{ toAddr := "ok2@example.com", subject := "S3", body := "B3" },
            { toAddr := "ok3@example.com", subject := "S4", body := "B4" }] }]
    fromField := some { email := some "ops@example.com", name := none } }

/-- The example transport: fails exactly on the destination
`bad@example.com`. -/
def exSendOk (e : Envelope) : Bool := e.toAddr != "bad@example.com"

/-! ## Rendering lemmas -/

theorem renderAux_nil (row : DataRow) (f : Nat) : renderAux row f [] = [] := by
  cases f <;> simp [renderAux]

theorem tokenBodyAt_eq_some {rest pre after : List Char} :
    tokenBodyAt rest = some (pre, after) ↔
      pre = rest.takeWhile (fun c => c != '}') ∧ pre ≠ [] ∧
        (rest.drop pre.length).take 2 = ['}', '}'] ∧
          after = (rest.drop pre.length).drop 2 := by
  simp only [tokenBodyAt]
  constructor
  · intro h
    split at h
    · exact absurd h (by simp)
    · split at h
      · rename_i hne htake
        obtain ⟨rfl, rfl⟩ := Prod.mk.injEq .. ▸ Option.some.injEq .. ▸ h
        exact ⟨rfl, hne, htake, rfl⟩
      · exact absurd h (by simp)
  · rintro ⟨rfl, hne, htake, rfl⟩
    simp [hne, htake]

theorem tokenAt_eq_some {c : Char} {rest pre after : List Char}
    (h : tokenAt c rest = some (pre, after)) :
    c = '{' ∧ rest.take 1 = ['{'] ∧ tokenBodyAt (rest.drop 1) = some (pre, after) := by
  unfold tokenAt at h
  split at h
  · rename_i hc
    exact ⟨hc.1, hc.2, h⟩
  · exact absurd h (by simp)

theorem tokenAt_after_length {c : Char} {rest pre after : List Char}
    (h : tokenAt c rest = some (pre, after)) : after.length ≤ rest.length := by
  obtain ⟨-, -, hbody⟩ := tokenAt_eq_some h
  obtain ⟨-, -, -, rfl⟩ := tokenBodyAt_eq_some.mp hbody
  simp only [List.length_drop]
  omega

theorem renderAux_congr (row : DataRow) :
    ∀ f₁ f₂ (l : List Char), l.length ≤ f₁ → l.length ≤ f₂ →
      renderAux row f₁ l = renderAux row f₂ l := by
  intro f₁
  induction f₁ with
  | zero =>
    intro f₂ l h1 _
    obtain rfl : l = [] := List.eq_nil_of_length_eq_zero (Nat.le_zero.mp h1)
    rw [renderAux_nil, renderAux_nil]
  | succ g ih =>
    intro f₂ l h1 h2
    cases l with
    | nil => rw [renderAux_nil, renderAux_nil]
    | cons c rest =>
      obtain ⟨g₂, rfl⟩ : ∃ g₂, f₂ = g₂ + 1 := ⟨f₂ - 1, by simp at h2; omega⟩
      simp only [renderAux]
      cases htok : tokenAt c rest with
      | none =>
        simp only [List.length_cons] at h1 h2
        dsimp only
        rw [ih g₂ rest (by omega) (by omega)]
      | some pa =>
        obtain ⟨pre, after⟩ := pa
        have hlen := tokenAt_after_length htok
        simp only [List.length_cons] at h1 h2
        dsimp only
        rw [ih g₂ after (by omega) (by omega)]

theorem renderList_cons_some {row : DataRow} {c : Char} {rest pre after : List Char}
    (h : tokenAt c rest = some (pre, after)) :
    renderList row (c :: rest)
      = (resolveToken row (String.mk (trimChars pre))).data ++ renderList row after := by
  have hlen := tokenAt_after_length h
  unfold renderList
  simp only [List.length_cons, renderAux, h]
  rw [renderAux_congr row rest.length after.length after hlen le_rfl]

theorem renderList_cons_none {row : DataRow} {c : Char} {rest : List Char}
    (h : tokenAt c rest = none) :
    renderList row (c :: rest) = c :: renderList row rest := by
  unfold renderList
  simp only [List.length_cons, renderAux, h]

theorem hasToken_cons_false {c : Char} {rest : List Char}
    (h : hasToken (c :: rest) = false) :
    tokenAt c rest = none ∧ hasToken rest = false := by
  have hall : ∀ i ∈ List.range (rest.length + 1), matchAt ((c :: rest).drop i) = false := by
    intro i hi
    by_contra hne
    have : hasToken (c :: rest) = true := by
      apply List.any_eq_true.mpr
      exact ⟨i, by simpa using hi, by simpa using Bool.of_not_eq_false hne⟩
    simp [this] at h
  constructor
  · have h0 := hall 0 (by simp)
    simp only [List.drop_zero, matchAt] at h0
    cases h' : tokenAt c rest with
    | none => rfl
    | some pa => rw [h'] at h0; simp at h0
  · by_contra hne
    obtain ⟨i, hi, hm⟩ := List.any_eq_true.mp (Bool.of_not_eq_false hne)
    have := hall (i + 1) (by simp at hi ⊢; omega)
    simp only [List.drop_succ_cons] at this
    rw [this] at hm
    cases hm

theorem renderList_id_of_no_token (row : DataRow) :
    ∀ l : List Char, hasToken l = false → renderList row l = l := by
  intro l
  induction l with
  | nil => intro _; simp [renderList, renderAux]
  | cons c rest ih =>
    intro h
    obtain ⟨h1, h2⟩ := hasToken_cons_false h
    rw [renderList_cons_none h1, ih h2]

theorem takeWhile_append_brace {k : List Char} (hk : ∀ c ∈ k, c ≠ '}') (r : List Char) :
    (k ++ '}' :: r).takeWhile (fun c => c != '}') = k := by
  induction k with
  | nil => simp
  | cons c k' ih =>
    have hc : c ≠ '}' := hk c (by simp)
    simp only [List.cons_append, List.takeWhile_cons]
    rw [if_pos (by simpa using hc)]
    rw [ih fun d hd => hk d (by simp [hd])]

theorem tokenBodyAt_token {k : List Char} (hne : k ≠ []) (hk : ∀ c ∈ k, c ≠ '}')
    (sfx : List Char) :
    tokenBodyAt (k ++ '}' :: '}' :: sfx) = some (k, sfx) := by
  have htw : (k ++ '}' :: '}' :: sfx).takeWhile (fun c => c != '}') = k :=
    takeWhile_append_brace hk ('}' :: sfx)
  have hdrop : (k ++ '}' :: '}' :: sfx).drop k.length = '}' :: '}' :: sfx :=
    List.drop_left k ('}' :: '}' :: sfx)
  simp only [tokenBodyAt, htw, hdrop]
  simp [hne]

theorem tokenAt_token {k : List Char} (hne : k ≠ []) (hk : ∀ c ∈ k, c ≠ '}')
    (sfx : List Char) :
    tokenAt '{' ('{' :: (k ++ '}' :: '}' :: sfx)) = some (k, sfx) := by
  simp only [tokenAt, List.take_cons, List.drop_succ_cons, List.drop_zero]
  rw [if_pos (by simp)]
  exact tokenBodyAt_token hne hk sfx

/-! ## String predicate characterizations -/

theorem startsWithL_iff (need : List Char) :
    ∀ hay : List Char, startsWithL hay need = true ↔ ∃ t, hay = need ++ t := by
  induction need with
  | nil => intro hay; simp [startsWithL]
  | cons d ds ih =>
    intro hay
    cases hay with
    | nil => simp [startsWithL]
    | cons c cs =>
      simp only [startsWithL, Bool.and_eq_true, decide_eq_true_eq, ih cs,
        List.cons_append, List.cons.injEq]
      constructor
      · rintro ⟨rfl, t, rfl⟩; exact ⟨t, rfl, rfl⟩
      · rintro ⟨t, rfl, rfl⟩; exact ⟨rfl, t, rfl⟩

theorem endsWithL_iff (hay need : List Char) :
    endsWithL hay need = true ↔ ∃ s, hay = s ++ need := by
  unfold endsWithL
  rw [startsWithL_iff]
  constructor
  · rintro ⟨t, ht⟩
    refine ⟨t.reverse, ?_⟩
    have := congrArg List.reverse ht
    simpa using this
  · rintro ⟨s, rfl⟩
    exact ⟨s.reverse, by simp⟩

theorem containsL_iff (hay need : List Char) :
    containsL hay need = true ↔ ∃ a b, hay = a ++ need ++ b := by
  unfold containsL
  rw [List.any_eq_true]
  constructor
  · rintro ⟨i, hi, hs⟩
    obtain ⟨t, ht⟩ := (startsWithL_iff need _).mp hs
    refine ⟨hay.take i, t, ?_⟩
    conv_lhs => rw [← List.take_append_drop i hay, ht]
    simp [List.append_assoc]
  · rintro ⟨a, b, rfl⟩
    refine ⟨a.length, ?_, ?_⟩
    · simp only [List.mem_range, List.length_append]
      omega
    · rw [List.append_assoc, List.drop_left]
      exact (startsWithL_iff need _).mpr ⟨b, rfl⟩

/-! ## Dispatch loop lemmas -/

theorem sendLoopAgent_ok (sendOk : Envelope → Bool) (fh an : String) :
    ∀ rs : List ReqRecipient, (∀ r ∈ rs, sendOk (buildEnvelope fh an r) = true) →
      sendLoopAgent sendOk fh an rs = (rs.map (buildEnvelope fh an), .ok rs.length) := by
  intro rs
  induction rs with
  | nil => intro _; rfl
  | cons r rs ih =>
    intro h
    have hr : sendOk (buildEnvelope fh an r) = true := h r (by simp)
    simp [sendLoopAgent, hr, ih fun x hx => h x (by simp [hx])]

theorem sendLoopAgent_fail (sendOk : Envelope → Bool) (fh an : String) :
    ∀ (rs₁ : List ReqRecipient) (r : ReqRecipient) (rs₂ : List ReqRecipient),
      (∀ x ∈ rs₁, sendOk (buildEnvelope fh an x) = true) →
      sendOk (buildEnvelope fh an r) = false →
      sendLoopAgent sendOk fh an (rs₁ ++ r :: rs₂)
        = (rs₁.map (buildEnvelope fh an) ++ [buildEnvelope fh an r], .error r.toAddr) := by
  intro rs₁
  induction rs₁ with
  | nil =>
    intro r rs₂ _ hr
    simp only [List.nil_append, sendLoopAgent, hr, List.map_nil]
    rfl
  | cons x rs ih =>
    intro r rs₂ h hr
    have hx : sendOk (buildEnvelope fh an x) = true := h x (by simp)
    have hih := ih r rs₂ (fun y hy => h y (by simp [hy])) hr
    simp [sendLoopAgent, hx, hih]

theorem sendLoop_ok (sendOk : Envelope → Bool) (fh : String) :
    ∀ agents : List ReqAgent,
      (∀ a ∈ agents, ∀ r ∈ a.recipients, sendOk (buildEnvelope fh a.name r) = true) →
      sendLoop sendOk fh agents
        = ((flatPairs agents).map (fun x => buildEnvelope fh x.1 x.2),
           .ok (agents.map fun a => (a.id, a.recipients.length))) := by
  intro agents
  induction agents with
  | nil => intro _; rfl
  | cons a rest ih =>
    intro h
    have ha := sendLoopAgent_ok sendOk fh a.name a.recipients (h a (by simp))
    simp only [sendLoop, ha, ih fun b hb => h b (by simp [hb]), flatPairs,
      List.flatMap_cons, List.map_append, List.map_map, List.map_cons]
    rfl

theorem sendLoop_fail (sendOk : Envelope → Bool) (fh : String) :
    ∀ (agents : List ReqAgent) (l₁ : List (String × ReqRecipient)) (an : String)
      (r : ReqRecipient) (l₂ : List (String × ReqRecipient)),
      flatPairs agents = l₁ ++ (an, r) :: l₂ →
      (∀ x ∈ l₁, sendOk (buildEnvelope fh x.1 x.2) = true) →
      sendOk (buildEnvelope fh an r) = false →
      sendLoop sendOk fh agents
        = (l₁.map (fun x => buildEnvelope fh x.1 x.2) ++ [buildEnvelope fh an r],
           .error r.toAddr) := by
  intro agents
  induction agents with
  | nil =>
    intro l₁ an r l₂ h _ _
    simp [flatPairs] at h
  | cons a rest ih =>
    intro l₁ an r l₂ h hok hfail
    rw [flatPairs, List.flatMap_cons] at h
    rcases List.append_eq_append_iff.mp h with ⟨t, ht1, ht2⟩ | ⟨t, ht1, ht2⟩
    · -- the recipient map of `a` is a prefix of `l₁`: the failure is further on
      subst ht1
      have haok : ∀ x ∈ a.recipients, sendOk (buildEnvelope fh a.name x) = true := by
        intro x hx
        exact hok (a.name, x) (by simp [List.mem_map.mpr ⟨x, hx, rfl⟩])
      have ha := sendLoopAgent_ok sendOk fh a.name a.recipients haok
      have hrest := ih t an r l₂ ht2 (fun x hx => hok x (by simp [hx])) hfail
      simp only [sendLoop, ha, hrest, List.map_append, List.map_map, List.append_assoc]
      rfl
    · -- the split point lies inside the recipient map of `a` (or right at its end)
      rcases t with _ | ⟨y, t'⟩
      · -- degenerate split: `l₁` is exactly the recipient map of `a`
        rw [List.append_nil] at ht1
        rw [List.nil_append] at ht2
        subst ht1
        have haok : ∀ x ∈ a.recipients, sendOk (buildEnvelope fh a.name x) = true := by
          intro x hx
          exact hok (a.name, x) (List.mem_map.mpr ⟨x, hx, rfl⟩)
        have ha := sendLoopAgent_ok sendOk fh a.name a.recipients haok
        have hrest := ih [] an r l₂ ht2.symm (by simp) hfail
        simp only [sendLoop, ha, hrest, List.map_map, List.map_nil, List.nil_append]
        rfl
      · -- the failing pair `(an, r)` occurs inside `a`'s own recipient map
        obtain ⟨hy, hl₂⟩ : y = (an, r) ∧ l₂ = t' ++ flatPairs rest := by
          have h2 := ht2
          simp only [List.cons_append, List.cons.injEq] at h2
          exact ⟨h2.1.symm, h2.2⟩
        subst hy
        obtain ⟨rs₁, rs', hrec, hmap₁, hmap'⟩ := List.map_eq_append_iff.mp ht1
        obtain ⟨z, rs₂, hrs', hz, -⟩ := List.map_eq_cons_iff.mp hmap'
        have han : a.name = an := congrArg Prod.fst hz
        have hz2 : r = z := (congrArg Prod.snd hz).symm
        subst hz2
        subst hrs'
        subst han
        have haok : ∀ x ∈ rs₁, sendOk (buildEnvelope fh a.name x) = true := by
          intro x hx
          have hmem : (a.name, x) ∈ l₁ := by
            rw [← hmap₁]
            exact List.mem_map.mpr ⟨x, hx, rfl⟩
          exact hok (a.name, x) hmem
        have ha := sendLoopAgent_fail sendOk fh a.name rs₁ r rs₂ haok hfail
        rw [← hrec] at ha
        simp only [sendLoop, ha, ← hmap₁, List.map_map]
        rfl

/-! ## Recipient resolution lemmas -/

theorem prepareAgent_tos (rows : List DataRow) (emailColumn nameColumn : String)
    (agent : AgentDefinition) :
    (prepareAgent rows emailColumn nameColumn agent).recipients.map (·.toAddr)
      = rows.flatMap fun row =>
          if applyFilter row agent.filter then
            (if normalizeValue (List.lookup emailColumn row) = "" then []
             else [normalizeValue (List.lookup emailColumn row)])
          else [] := by
  induction rows with
  | nil => rfl
  | cons row rows ih =>
    simp only [prepareAgent, List.filter_cons, List.flatMap_cons] at ih ⊢
    by_cases hf : applyFilter row agent.filter
    · simp only [hf, if_true, List.filterMap_cons]
      by_cases he : normalizeValue (List.lookup emailColumn row) = ""
      · simpa [he] using ih
      · simpa [he] using ih
    · simpa [hf] using ih

theorem flatMap_filter_nonempty (l : List ReqAgent) :
    ((l.filter fun a => !a.recipients.isEmpty).flatMap fun a => a.recipients.map (·.toAddr))
      = l.flatMap fun a => a.recipients.map (·.toAddr) := by
  induction l with
  | nil => rfl
  | cons a l ih =>
    simp only [List.filter_cons, List.flatMap_cons]
    by_cases h : a.recipients.isEmpty
    · have : a.recipients = [] := by simpa [List.isEmpty_iff] using h
      simp [h, this, ih]
    · simp [h, ih]

theorem flatMap_map_list {α β γ : Type _} (f : α → β) (g : β → List γ) :
    ∀ l : List α, (l.map f).flatMap g = l.flatMap fun a => g (f a) := by
  intro l
  induction l with
  | nil => rfl
  | cons a l ih => simp only [List.map_cons, List.flatMap_cons, ih]

theorem preparedAgents_tos (rows : List DataRow) (emailColumn nameColumn : String)
    (agents : List AgentDefinition) :
    ((preparedAgents rows emailColumn nameColumn agents).flatMap fun a =>
        a.recipients.map (·.toAddr))
      = collectedEmails rows emailColumn agents := by
  unfold preparedAgents
  rw [flatMap_filter_nonempty, flatMap_map_list]
  unfold collectedEmails
  congr 1
  funext agent
  rw [prepareAgent_tos rows emailColumn nameColumn agent]

/-! ## Claim theorems -/

/-- C5: `applyFilter` returns true when the filter is absent, or its column is
empty, or its value is empty, or its operator is not one of the four known
operators; otherwise it lower-cases both the row value at the filter's column
(missing column read as the empty string) and the filter value and applies the
operator exactly: equals is string equality, contains is substring, startsWith
is prefix, endsWith is suffix. -/
theorem C5_filter_evaluator_semantics (row : DataRow) (f : AgentFilter) :
    applyFilter row none = true
  ∧ (f.column = "" → applyFilter row (some f) = true)
  ∧ (f.value = "" → applyFilter row (some f) = true)
  ∧ (f.operator ∉ (["equals", "contains", "startsWith", "endsWith"] : List String) →
      applyFilter row (some f) = true)
  ∧ (f.column ≠ "" → f.value ≠ "" →
      (f.operator = "equals" →
        (applyFilter row (some f) = true ↔
          toLowerStr ((List.lookup f.column row).getD "") = toLowerStr f.value))
    ∧ (f.operator = "contains" →
        (applyFilter row (some f) = true ↔
          ∃ a b, (toLowerStr ((List.lookup f.column row).getD "")).data
            = a ++ (toLowerStr f.value).data ++ b))
    ∧ (f.operator = "startsWith" →
        (applyFilter row (some f) = true ↔
          ∃ t, (toLowerStr ((List.lookup f.column row).getD "")).data
            = (toLowerStr f.value).data ++ t))
    ∧ (f.operator = "endsWith" →
        (applyFilter row (some f) = true ↔
          ∃ s, (toLowerStr ((List.lookup f.column row).getD "")).data
            = s ++ (toLowerStr f.value).data))) := by
  refine ⟨rfl, ?_, ?_, ?_, ?_⟩
  · intro h; simp [applyFilter, h]
  · intro h; simp [applyFilter, h]
  · intro h
    simp only [applyFilter]
    split
    · rfl
    · split <;> simp_all
  · intro hc hv
    refine ⟨?_, ?_, ?_, ?_⟩
    · intro hop
      simp only [applyFilter, hop]
      rw [if_neg (by simp [hc, hv])]
      simp
    · intro hop
      simp only [applyFilter, hop]
      rw [if_neg (by simp [hc, hv])]
      simp only [containsL_iff]
    · intro hop
      simp only [applyFilter, hop]
      rw [if_neg (by simp [hc, hv])]
      simp only [startsWithL_iff]
    · intro hop
      simp only [applyFilter, hop]
      rw [if_neg (by simp [hc, hv])]
      simp only [endsWithL_iff]

/-- Witness for C5 at a concrete row and filter. -/
theorem C5_filter_evaluator_semantics_witness :
    ("Topic" : String) ≠ "" ∧ ("EA" : String) ≠ ""
  ∧ (applyFilter exRow (some ⟨"Topic", "contains", "EA"⟩) = true ↔
      ∃ a b, (toLowerStr ((List.lookup "Topic" exRow).getD "")).data
        = a ++ (toLowerStr "EA").data ++ b)
  ∧ applyFilter exRow (some ⟨"Topic", "bogus", "zzz"⟩) = true := by
  refine ⟨by decide, by decide, ?_, ?_⟩
  · exact ((C5_filter_evaluator_semantics exRow ⟨"Topic", "contains", "EA"⟩).2.2.2.2
      (by decide) (by decide)).2.1 rfl
  · exact (C5_filter_evaluator_semantics exRow ⟨"Topic", "bogus", "zzz"⟩).2.2.2.1 (by decide)

/-- C6: recipient resolution never produces a Recipient whose destination is
empty — a row whose email-column value is empty after trimming is skipped and
contributes no Recipient, for any agent and any filter. -/
theorem C6_empty_email_exclusion (rows : List DataRow) (emailColumn nameColumn : String)
    (agents : List AgentDefinition) :
    (∀ a ∈ preparedAgents rows emailColumn nameColumn agents,
      ∀ r ∈ a.recipients, r.toAddr ≠ "")
  ∧ (∀ (agent : AgentDefinition) (row : DataRow),
      normalizeValue (List.lookup emailColumn row) = "" →
      ∀ r ∈ (prepareAgent rows emailColumn nameColumn agent).recipients, r.vars ≠ row) := by
  constructor
  · intro a ha r hr
    have ha' : a ∈ agents.map (prepareAgent rows emailColumn nameColumn) :=
      List.mem_of_mem_filter ha
    obtain ⟨ag, -, rfl⟩ := List.mem_map.mp ha'
    obtain ⟨row, -, hsome⟩ := List.mem_filterMap.mp hr
    by_cases he : normalizeValue (List.lookup emailColumn row) = ""
    · simp [he] at hsome
    · rw [if_neg he] at hsome
      obtain rfl := Option.some.inj hsome
      exact he
  · intro agent row he r hr hvars
    obtain ⟨row', -, hsome⟩ := List.mem_filterMap.mp hr
    by_cases he' : normalizeValue (List.lookup emailColumn row') = ""
    · simp [he'] at hsome
    · rw [if_neg he'] at hsome
      obtain rfl := Option.some.inj hsome
      have hrows : row' = row := hvars
      exact he' (hrows ▸ he)

/-- Witness for C6 at a concrete resolution. -/
theorem C6_empty_email_exclusion_witness :
    (prepareAgent [exRow] "Email" "Name" exAgentA).recipients.length = 1
  ∧ ∀ a ∈ preparedAgents [exRow] "Email" "Name" [exAgentA],
      ∀ r ∈ a.recipients, r.toAddr ≠ "" := by
  refine ⟨by decide, ?_⟩
  exact (C6_empty_email_exclusion [exRow] "Email" "Name" [exAgentA]).1

/-- C7: a payload with an empty agents list, or with some agent whose
recipients list is empty, or with some recipient whose destination is not a
syntactically valid email or whose subject or body is empty, is rejected
wholesale with a non-empty structured issue list, before any transport
interaction (no envelope is handed to the transport). -/
theorem C7_wholesale_validation (env : Env) (sendOk : Envelope → Bool) (p : Payload)
    (h : p.agents = []
      ∨ (∃ a ∈ p.agents, a.recipients = [])
      ∨ ∃ a ∈ p.agents, ∃ r ∈ a.recipients,
          isValidEmail r.toAddr = false ∨ r.subject = "" ∨ r.body = "") :
    payloadIssues p ≠ [] ∧ POST env sendOk p = (.invalidPayload (payloadIssues p), []) := by
  have hne : payloadIssues p ≠ [] := by
    rcases h with h | ⟨a, ha, hrec⟩ | ⟨a, ha, r, hr, hbad⟩
    · simp [payloadIssues, h]
    · apply List.ne_nil_of_mem (a := Issue.emptyRecipients a)
      have hmem : Issue.emptyRecipients a ∈ p.agents.flatMap agentIssues :=
        List.mem_flatMap.mpr ⟨a, ha, by simp [agentIssues, hrec]⟩
      simp [payloadIssues, hmem]
    · have hmem : ∃ i ∈ recipientIssues a r, True := by
        rcases hbad with hb | hb | hb
        · exact ⟨.invalidTo a r, by simp [recipientIssues, hb], trivial⟩
        · exact ⟨.emptySubject a r, by simp [recipientIssues, hb], trivial⟩
        · exact ⟨.emptyBody a r, by simp [recipientIssues, hb], trivial⟩
      obtain ⟨i, hi, -⟩ := hmem
      apply List.ne_nil_of_mem (a := i)
      have hmem' : i ∈ p.agents.flatMap agentIssues :=
        List.mem_flatMap.mpr ⟨a, ha,
          by simp only [agentIssues, List.mem_append]
             exact Or.inr (List.mem_flatMap.mpr ⟨r, hr, hi⟩)⟩
      simp [payloadIssues, hmem']
  refine ⟨hne, ?_⟩
  unfold POST
  rw [if_neg hne]

/-- Witness for C7 at a concrete invalid payload (an agent with no
recipients). -/
theorem C7_wholesale_validation_witness :
    payloadIssues { agents := [{ id := "a1", name := "A", recipients := [] }] } ≠ []
  ∧ POST {} (fun _ => true) { agents := [{ id := "a1", name := "A", recipients := [] }] }
      = (.invalidPayload
          (payloadIssues { agents := [{ id := "a1", name := "A", recipients := [] }] }), []) :=
  C7_wholesale_validation {} (fun _ => true)
    { agents := [{ id := "a1", name := "A", recipients := [] }] }
    (Or.inr (Or.inl ⟨{ id := "a1", name := "A", recipients := [] }, by simp, rfl⟩))

/-- C8: the sender email is the request-supplied `from.email` when non-empty,
otherwise the process-level default sender email; when neither yields a
non-empty email the whole dispatch is rejected with the missing-sender error
before any message is attempted. -/
theorem C8_sender_identity_resolution (env : Env) (f : FromHeader) (p : Payload)
    (sendOk : Envelope → Bool) :
    (f.email.getD "" ≠ "" → senderEmailOf env f = f.email.getD "")
  ∧ (f.email.getD "" = "" → senderEmailOf env f = defaultSenderEmail env)
  ∧ (senderEmailOf env f = "" ↔ resolveFromHeader env f = none)
  ∧ (payloadIssues p = [] → senderEmailOf env (p.fromField.getD {}) = "" →
      POST env sendOk p = (.missingSender, [])) := by
  refine ⟨?_, ?_, ?_, ?_⟩
  · intro h; simp [senderEmailOf, jsOr, h]
  · intro h; simp [senderEmailOf, jsOr, h]
  · constructor
    · intro h; simp [resolveFromHeader, h]
    · intro h
      by_contra hne
      unfold resolveFromHeader at h
      rw [if_neg hne] at h
      split at h <;> simp at h
  · intro hv hs
    unfold POST
    rw [if_pos hv]
    simp [resolveFromHeader, hs]

/-- Witness for C8 at a concrete environment and payload. -/
theorem C8_sender_identity_resolution_witness :
    payloadIssues exPayloadNoFrom = []
  ∧ senderEmailOf {} (exPayloadNoFrom.fromField.getD {}) = ""
  ∧ POST {} (fun _ => true) exPayloadNoFrom = (.missingSender, [])
  ∧ (({ email := some "req@example.com" } : FromHeader).email.getD "" ≠ ""
      → senderEmailOf { MAIL_FROM := "default@example.com" } { email := some "req@example.com" }
          = "req@example.com") := by
  refine ⟨by decide, by decide, ?_, ?_⟩
  · exact (C8_sender_identity_resolution {} {} exPayloadNoFrom (fun _ => true)).2.2.2
      (by decide) (by decide)
  · exact (C8_sender_identity_resolution { MAIL_FROM := "default@example.com" }
      { email := some "req@example.com" } exPayloadNoFrom (fun _ => true)).1

/-- C9: a request whose `from.email` field is present but not a syntactically
valid email address — including the empty string — is rejected as structurally
invalid with a non-empty issues list, before any transport interaction, and it
never falls back to the process-level default sender, whatever the
environment. -/
theorem C9_invalid_from_email_rejected (env : Env) (sendOk : Envelope → Bool)
    (p : Payload) (f : FromHeader) (e : String)
    (hf : p.fromField = some f) (he : f.email = some e) (hbad : isValidEmail e = false) :
    isValidEmail "" = false
  ∧ payloadIssues p ≠ []
  ∧ POST env sendOk p = (.invalidPayload (payloadIssues p), []) := by
  have hfrom : fromIssues p.fromField = [Issue.invalidFromEmail e] := by
    simp [fromIssues, hf, he, hbad]
  have hmem : Issue.invalidFromEmail e ∈ payloadIssues p := by
    simp [payloadIssues, hfrom]
  have hne := List.ne_nil_of_mem hmem
  refine ⟨by decide, hne, ?_⟩
  unfold POST
  rw [if_neg hne]

/-- Witness for C9: empty `from.email` with a configured default sender is
still rejected. -/
theorem C9_invalid_from_email_rejected_witness :
    isValidEmail "" = false
  ∧ payloadIssues { agents := exPayloadNoFrom.agents, fromField := some { email := some "" } } ≠ []
  ∧ POST { MAIL_FROM := "default@example.com" } (fun _ => true)
      { agents := exPayloadNoFrom.agents, fromField := some { email := some "" } }
      = (.invalidPayload
          (payloadIssues { agents := exPayloadNoFrom.agents, fromField := some { email := some "" } }),
         []) :=
  C9_invalid_from_email_rejected { MAIL_FROM := "default@example.com" } (fun _ => true)
    { agents := exPayloadNoFrom.agents, fromField := some { email := some "" } }
    { email := some "" } "" rfl rfl (by decide)

/-- C10: the distinct-recipient count compares email addresses
case-sensitively — two rows whose trimmed emails differ only in letter case
count as 2 — even though filter matching and template-key lookup are
case-insensitive. -/
theorem C10_distinct_count_case_sensitive :
    totalRecipients [exRow, exRowUpper] "Email" [exAgentA] = 2
  ∧ normalizeValue (List.lookup "Email" exRow) = "ana@example.com"
  ∧ normalizeValue (List.lookup "Email" exRowUpper) = "Ana@example.com"
  ∧ applyFilter exRowUpper (some ⟨"Email", "equals", "ANA@EXAMPLE.COM"⟩) = true
  ∧ renderTemplate "\x7b\x7bemail\x7d\x7d" exRowUpper = "Ana@example.com" := by
  decide

/-- C1: if the transport fails for some recipient (all earlier pairs in the
flattened agent/recipient stream succeeding), the dispatch call fails with an
error naming that recipient's address, the envelopes handed to the transport
are exactly those up to and including the failing one (no later recipient of
any agent is attempted), and no per-agent summary is returned. -/
theorem C1_abort_on_first_failure (env : Env) (sendOk : Envelope → Bool) (p : Payload)
    (l₁ : List (String × ReqRecipient)) (an : String) (r : ReqRecipient)
    (l₂ : List (String × ReqRecipient)) (fh : String)
    (hvalid : payloadIssues p = [])
    (hfrom : resolveFromHeader env (p.fromField.getD {}) = some fh)
    (hsplit : flatPairs p.agents = l₁ ++ (an, r) :: l₂)
    (hok : ∀ x ∈ l₁, sendOk (buildEnvelope fh x.1 x.2) = true)
    (hfail : sendOk (buildEnvelope fh an r) = false) :
    POST env sendOk p
      = (.sendFailure r.toAddr,
         l₁.map (fun x => buildEnvelope fh x.1 x.2) ++ [buildEnvelope fh an r]) := by
  have hloop := sendLoop_fail sendOk fh p.agents l₁ an r l₂ hsplit hok hfail
  unfold POST
  rw [if_pos hvalid, hfrom]
  simp only [hloop]

/-- Witness for C1: agent A's second recipient fails, agent B's recipients are
never attempted. -/
theorem C1_abort_on_first_failure_witness :
    payloadIssues exPayloadFail = []
  ∧ resolveFromHeader {} (exPayloadFail.fromField.getD {}) = some "ops@example.com"
  ∧ flatPairs exPayloadFail.agents
      = [("Agent A", { toAddr := "ok1@example.com", subject := "S1", body := "B1" })]
        ++ ("Agent A", { toAddr := "bad@example.com", subject := "S2", body := "B2" })
          :: [("Agent B", { toAddr := "ok2@example.com", subject := "S3", body := "B3" }),
              ("Agent B", { toAddr := "ok3@example.com", subject := "S4", body := "B4" })]
  ∧ (∀ x ∈ ([("Agent A",
        ({ toAddr := "ok1@example.com", subject := "S1", body := "B1" } : ReqRecipient))] :
        List (String × ReqRecipient)),
      exSendOk (buildEnvelope "ops@example.com" x.1 x.2) = true)
  ∧ exSendOk (buildEnvelope "ops@example.com" "Agent A"
      { toAddr := "bad@example.com", subject := "S2", body := "B2" }) = false
  ∧ POST {} exSendOk exPayloadFail
      = (.sendFailure "bad@example.com",
         ([("Agent A",
             ({ toAddr := "ok1@example.com", subject := "S1", body := "B1" } : ReqRecipient))].map
            fun x => buildEnvelope "ops@example.com" x.1 x.2)
          ++ [buildEnvelope "ops@example.com" "Agent A"
                { toAddr := "bad@example.com", subject := "S2", body := "B2" }]) :=
  ⟨by decide, by decide, by decide, by decide, by decide,
    C1_abort_on_first_failure {} exSendOk exPayloadFail
      [("Agent A", { toAddr := "ok1@example.com", subject := "S1", body := "B1" })]
      "Agent A" { toAddr := "bad@example.com", subject := "S2", body := "B2" }
      [("Agent B", { toAddr := "ok2@example.com", subject := "S3", body := "B3" }),
       ("Agent B", { toAddr := "ok3@example.com", subject := "S4", body := "B4" })]
      "ops@example.com" (by decide) (by decide) (by decide) (by decide) (by decide)⟩

/-- C2: the distinct-recipient count equals the size of the set-union of the
resolved non-empty email values across all agents, while dispatch hands the
transport one envelope per agent-recipient pair; in particular two agents
matching the same row with the same email give a distinct count of 1 but two
send attempts. -/
theorem C2_distinct_count_vs_send_count :
    (∀ (rows : List DataRow) (emailColumn nameColumn : String)
        (agents : List AgentDefinition), emailColumn ≠ "" →
        totalRecipients rows emailColumn agents
          = ((preparedAgents rows emailColumn nameColumn agents).flatMap fun a =>
              a.recipients.map (·.toAddr)).toFinset.card)
  ∧ (∀ (env : Env) (sendOk : Envelope → Bool) (p : Payload) (fh : String),
      payloadIssues p = [] →
      resolveFromHeader env (p.fromField.getD {}) = some fh →
      (∀ x ∈ flatPairs p.agents, sendOk (buildEnvelope fh x.1 x.2) = true) →
      (POST env sendOk p).2 = (flatPairs p.agents).map fun x => buildEnvelope fh x.1 x.2)
  ∧ totalRecipients [exRow] "Email" [exAgentA, exAgentB] = 1
  ∧ (POST {} (fun _ => true) exPayload).2.length = 2 := by
  refine ⟨?_, ?_, by decide, by decide⟩
  · intro rows emailColumn nameColumn agents h
    unfold totalRecipients
    rw [if_neg h, List.card_toFinset, preparedAgents_tos]
  · intro env sendOk p fh hv hf hall
    have hloop := sendLoop_ok sendOk fh p.agents fun a ha r hr =>
      hall (a.name, r) (List.mem_flatMap.mpr ⟨a, ha, List.mem_map.mpr ⟨r, hr, rfl⟩⟩)
    unfold POST
    rw [if_pos hv, hf]
    simp only [hloop]

/-- Witness for C2 at the two-agents-one-row scenario. -/
theorem C2_distinct_count_vs_send_count_witness :
    ("Email" : String) ≠ ""
  ∧ totalRecipients [exRow] "Email" [exAgentA, exAgentB]
      = ((preparedAgents [exRow] "Email" "Name" [exAgentA, exAgentB]).flatMap fun a =>
          a.recipients.map (·.toAddr)).toFinset.card :=
  ⟨by decide,
    C2_distinct_count_vs_send_count.1 [exRow] "Email" "Name" [exAgentA, exAgentB] (by decide)⟩

/-- C3: a well-formed token (non-empty key without closing braces) is replaced
— never left literal — by `resolveToken`, which takes the row value under the
exact trimmed key when present, otherwise the row value under the
trimmed-lower-cased key when present, otherwise the empty string. -/
theorem C3_template_token_resolution :
    (∀ (row : DataRow) (pfx k sfx : List Char), '{' ∉ pfx → k ≠ [] → '}' ∉ k →
      renderTemplate (String.mk (pfx ++ '{' :: '{' :: (k ++ '}' :: '}' :: sfx))) row
        = String.mk (pfx ++ (resolveToken row (String.mk (trimChars k))).data
            ++ renderList row sfx))
  ∧ (∀ (row : DataRow) (key : String) (v : String),
      List.lookup key row = some v → resolveToken row key = v)
  ∧ (∀ (row : DataRow) (key : String) (v : String), List.lookup key row = none →
      List.lookup (toLowerStr key) (loweredRow row) = some v → resolveToken row key = v)
  ∧ (∀ (row : DataRow) (key : String), List.lookup key row = none →
      List.lookup (toLowerStr key) (loweredRow row) = none → resolveToken row key = "") := by
  refine ⟨?_, ?_, ?_, ?_⟩
  · intro row pfx k sfx hpfx hk hbrace
    unfold renderTemplate
    congr 1
    induction pfx with
    | nil =>
      simp only [List.nil_append]
      rw [renderList_cons_some
        (tokenAt_token hk (fun c hc heq => hbrace (heq ▸ hc)) sfx)]
    | cons c pfx ih =>
      have hc : c ≠ '{' := fun heq => hpfx (heq ▸ List.mem_cons_self c pfx)
      have hpfx' : '{' ∉ pfx := fun hmem => hpfx (List.mem_cons_of_mem c hmem)
      simp only [List.cons_append]
      rw [renderList_cons_none (by unfold tokenAt; rw [if_neg fun hcond => hc hcond.1]),
        ih hpfx']
  · intro row key v h; simp [resolveToken, h]
  · intro row key v h1 h2; simp [resolveToken, h1, h2]
  · intro row key h1 h2; simp [resolveToken, h1, h2]

/-- Witness for C3 at a concrete template and row. -/
theorem C3_template_token_resolution_witness :
    ('{' ∉ "Hi ".data) ∧ (" Name ".data ≠ []) ∧ ('}' ∉ " Name ".data)
  ∧ renderTemplate
      (String.mk ("Hi ".data ++ '{' :: '{' :: (" Name ".data ++ '}' :: '}' :: "!".data))) exRow
      = String.mk ("Hi ".data ++ (resolveToken exRow (String.mk (trimChars " Name ".data))).data
          ++ renderList exRow "!".data) :=
  ⟨by decide, by decide, by decide,
    C3_template_token_resolution.1 exRow "Hi ".data " Name ".data "!".data
      (by decide) (by decide) (by decide)⟩

/-- C4: rendering is deterministic, a template with no token occurrence is
returned unchanged, and rendering is idempotent on outputs with no remaining
tokens. -/
theorem C4_idempotent_rendering :
    (∀ (t : String) (row : DataRow), renderTemplate t row = renderTemplate t row)
  ∧ (∀ (t : String) (row : DataRow), hasToken t.data = false → renderTemplate t row = t)
  ∧ (∀ (t : String) (row : DataRow), hasToken (renderTemplate t row).data = false →
      renderTemplate (renderTemplate t row) row = renderTemplate t row) := by
  have key : ∀ (t : String) (row : DataRow), hasToken t.data = false → renderTemplate t row = t := by
    intro t row h
    unfold renderTemplate
    rw [renderList_id_of_no_token row t.data h]
  exact ⟨fun t row => rfl, key, fun t row h => key _ row h⟩

/-- Witness for C4 at concrete strings. -/
theorem C4_idempotent_rendering_witness :
    hasToken "plain text".data = false
  ∧ renderTemplate "plain text" exRow = "plain text"
  ∧ hasToken (renderTemplate "Hello \x7b\x7bName\x7d\x7d" exRow).data = false
  ∧ renderTemplate (renderTemplate "Hello \x7b\x7bName\x7d\x7d" exRow) exRow
      = renderTemplate "Hello \x7b\x7bName\x7d\x7d" exRow :=
  ⟨by decide, C4_idempotent_rendering.2.1 "plain text" exRow (by decide), by decide,
    C4_idempotent_rendering.2.2 "Hello \x7b\x7bName\x7d\x7d" exRow (by decide)⟩
